import Mathlib

/-!
Verification of the color-reduction core of the 7-color e-paper image
converter (files image_processor.py, convert.py,
eink_image_pylettizer/convert.py).

Embedding conventions:
* A pixel is a triple of natural-number channel values; the u8 typing of
  the source is captured by the predicate ValidPixel (each channel <= 255).
* Machine i64 arithmetic is modelled by Int; all intermediate values in the
  source (squared channel distances, sys.maxsize) are far below 2^63, so no
  wrap-around occurs and plain Int is faithful.
* The Python float arithmetic of the ditherer is modelled by Rat.  Every
  float value arising there is of the form (8*d + o - n)/8 with
  0 <= d, o, n <= 255, a dyadic rational with tiny numerator, hence exactly
  representable in IEEE double and all operations (subtraction, division by
  8, addition) are exact; the Rat model computes bit-for-bit the same values.
* u8(value) on a float in mypyc/Python truncates toward zero; on the
  non-negative branch of clamp this is the floor.
* Python round() is round-half-to-even (py_round below).
* The PIL Image mutated in place by the ditherer is modelled by the Raster
  structure (width, height and a total pixel map); getpixel/putpixel mirror
  the source accesses, and the sequential read-modify-write order of
  distribute_error is kept exactly.
* The source hard-wires TARGET_PALETTE into get_closest_colour and
  diffuse_image; the palette-generic versions (nearest, diffuse) run the
  identical loop body with the palette as a parameter, and the source
  functions are their instantiations at TARGET_PALETTE.  A diffuse step that
  would raise in Python (empty palette indexing) is modelled by the Bool
  component of the result turning false, with the raster left as it was at
  the moment of the raise.
-/

/-- A color: ordered triple of channel values (red, green, blue). -/
abbrev Pixel : Type := ℕ × ℕ × ℕ

/-- The u8 range constraint of the source types: each channel fits a byte. -/
def ValidPixel (p : Pixel) : Prop := p.1 ≤ 255 ∧ p.2.1 ≤ 255 ∧ p.2.2 ≤ 255

instance (p : Pixel) : Decidable (ValidPixel p) := by
  unfold ValidPixel; infer_instance

/-- Python sys.maxsize on a 64-bit platform. -/
def maxsize : ℤ := 9223372036854775807

/-- ImageProcessor.TARGET_PALETTE (image_processor.py lines 17-25). -/
def TARGET_PALETTE : List Pixel :=
  [(0x0C, 0x0C, 0x0E),
   (0xD2, 0xD2, 0xD0),
   (0x1E, 0x60, 0x1F),
   (0x1D, 0x1E, 0xAA),
   (0x8C, 0x1B, 0x1D),
   (0xD3, 0xC9, 0x3D),
   (0xC1, 0x71, 0x2A)]

/-- ImageProcessor.euclidean_distance (image_processor.py lines 27-32):
squared Euclidean distance of two colors, summed in the source order
red, blue, green. -/
def euclidean_distance (source_colour target_colour : Pixel) : ℤ :=
  let red_diff : ℤ := (source_colour.1 : ℤ) - (target_colour.1 : ℤ)
  let green_diff : ℤ := (source_colour.2.1 : ℤ) - (target_colour.2.1 : ℤ)
  let blue_diff : ℤ := (source_colour.2.2 : ℤ) - (target_colour.2.2 : ℤ)
  red_diff * red_diff + blue_diff * blue_diff + green_diff * green_diff

/-- The for-loop of ImageProcessor.get_closest_colour (lines 37-41): running
best candidate and best distance, updated on strictly smaller distance. -/
def closest_loop (old_pixel : Pixel) :
    List Pixel → Pixel → ℤ → Pixel
  | [], best_candidate, _ => best_candidate
  | candidate :: rest, best_candidate, best_distance =>
    if euclidean_distance old_pixel candidate < best_distance then
      closest_loop old_pixel rest candidate (euclidean_distance old_pixel candidate)
    else
      closest_loop old_pixel rest best_candidate best_distance

/-- ImageProcessor.get_closest_colour (lines 34-42): the loop over
TARGET_PALETTE, with best_candidate initialised to TARGET_PALETTE[0] and
best_distance to sys.maxsize. -/
def get_closest_colour (old_pixel : Pixel) : Pixel :=
  closest_loop old_pixel TARGET_PALETTE TARGET_PALETTE.headI maxsize

/-- The same search with the palette as a parameter (the contract `nearest`
of the specification).  An empty palette makes the initial palette[0]
access raise in Python; this is the none result. -/
def nearest (palette : List Pixel) (old_pixel : Pixel) : Option Pixel :=
  match palette with
  | [] => none
  | p0 :: _ => some (closest_loop old_pixel palette p0 maxsize)

/-- The in-place mutable RGB raster (the PIL Image seen by the core):
dimensions plus a total map from integer coordinates to pixels.  Only
coordinates inside [0,width) x [0,height) are ever read or written by the
algorithm. -/
structure Raster where
  width : ℤ
  height : ℤ
  data : ℤ × ℤ → Pixel

/-- PIL Image.size: the (width, height) pair. -/
def Raster.size (r : Raster) : ℤ × ℤ := (r.width, r.height)

/-- PIL Image.getpixel. -/
def getpixel (r : Raster) (p : ℤ × ℤ) : Pixel := r.data p

/-- PIL Image.putpixel: pointwise functional update. -/
def putpixel (r : Raster) (p : ℤ × ℤ) (v : Pixel) : Raster :=
  { r with data := fun q => if q = p then v else r.data q }

/-- ImageProcessor.is_in_bounds (lines 44-46). -/
def is_in_bounds (size : ℤ × ℤ) (x y : ℤ) : Bool :=
  decide ((0 ≤ x ∧ x < size.1) ∧ (0 ≤ y ∧ y < size.2))

/-- ImageProcessor.clamp (lines 48-54).  value > 255 saturates to 255,
value < 0 saturates to 0, and otherwise u8(value) truncates toward zero,
which on the remaining branch (0 <= value <= 255) is the floor. -/
def clamp (value : ℚ) : ℕ :=
  if 255 < value then 255
  else if value < 0 then 0
  else ⌊value⌋.toNat

/-- One channel of the expression on lines 57-59:
float(diffused) + (float(old) - float(new)) / 8, exact in Rat. -/
def adjusted_channel (old_c new_c diffused_c : ℕ) : ℚ :=
  (diffused_c : ℚ) + ((old_c : ℚ) - (new_c : ℚ)) / 8

/-- ImageProcessor.calculate_adjusted_rgb (lines 56-60). -/
def calculate_adjusted_rgb (old_rgb new_rgb diffused_rgb : Pixel) : Pixel :=
  (clamp (adjusted_channel old_rgb.1 new_rgb.1 diffused_rgb.1),
   clamp (adjusted_channel old_rgb.2.1 new_rgb.2.1 diffused_rgb.2.1),
   clamp (adjusted_channel old_rgb.2.2 new_rgb.2.2 diffused_rgb.2.2))

/-- ImageProcessor.distribute_error (lines 62-83): six guarded sequential
read-modify-write taps, in source order (x+1,y), (x+2,y), (x-1,y+1),
(x,y+1), (x,y+2), (x+1,y+1); the last tap is guarded by the conjunction of
the first two bounds checks, exactly as in the source. -/
def distribute_error (output : Raster) (old_pixel new_pixel : Pixel) (x y : ℤ) : Raster :=
  let x_plus_1 := is_in_bounds output.size (x + 1) y
  let y_plus_1 := is_in_bounds output.size x (y + 1)
  let r1 := if x_plus_1 then
      putpixel output (x + 1, y)
        (calculate_adjusted_rgb old_pixel new_pixel (getpixel output (x + 1, y)))
    else output
  let r2 := if is_in_bounds r1.size (x + 2) y then
      putpixel r1 (x + 2, y)
        (calculate_adjusted_rgb old_pixel new_pixel (getpixel r1 (x + 2, y)))
    else r1
  let r3 := if is_in_bounds r2.size (x - 1) (y + 1) then
      putpixel r2 (x - 1, y + 1)
        (calculate_adjusted_rgb old_pixel new_pixel (getpixel r2 (x - 1, y + 1)))
    else r2
  let r4 := if y_plus_1 then
      putpixel r3 (x, y + 1)
        (calculate_adjusted_rgb old_pixel new_pixel (getpixel r3 (x, y + 1)))
    else r3
  let r5 := if is_in_bounds r4.size x (y + 2) then
      putpixel r4 (x, y + 2)
        (calculate_adjusted_rgb old_pixel new_pixel (getpixel r4 (x, y + 2)))
    else r4
  let r6 := if x_plus_1 && y_plus_1 then
      putpixel r5 (x + 1, y + 1)
        (calculate_adjusted_rgb old_pixel new_pixel (getpixel r5 (x + 1, y + 1)))
    else r5
  r6

/-- ImageProcessor.diffuse_pixel (lines 85-89), with the palette of the
nearest-color subroutine as a parameter (the source instantiates it at
TARGET_PALETTE).  none models the IndexError of an empty palette, raised
before the putpixel write. -/
def diffuse_pixel (palette : List Pixel) (output : Raster) (x y : ℤ) : Option Raster :=
  (nearest palette (getpixel output (x, y))).map (fun new_pixel =>
    distribute_error (putpixel output (x, y) new_pixel)
      (getpixel output (x, y)) new_pixel x y)

/-- The row-major traversal order of diffuse_image (lines 91-96): y outer
loop ascending over range(height), x inner loop ascending over
range(width). -/
def rowMajor (width height : ℤ) : List (ℤ × ℤ) :=
  (List.range height.toNat).flatMap
    (fun y : ℕ => (List.range width.toNat).map (fun x : ℕ => ((x : ℤ), (y : ℤ))))

/-- The nested loops of diffuse_image, processing a list of positions in
order.  The Bool is true when no step raised; a raise stops the run and
leaves the raster exactly as the failing step found it. -/
def diffuse_go (palette : List Pixel) : List (ℤ × ℤ) → Raster → Raster × Bool
  | [], r => (r, true)
  | p :: rest, r =>
    match diffuse_pixel palette r p.1 p.2 with
    | none => (r, false)
    | some r2 => diffuse_go palette rest r2

/-- The contract `diffuse(raster, palette)` of the specification: the
diffuse_image loops with the palette as a parameter. -/
def diffuse (palette : List Pixel) (r : Raster) : Raster × Bool :=
  diffuse_go palette (rowMajor r.width r.height) r

/-- ImageProcessor.diffuse_image (lines 91-96): diffuse with the hard-wired
TARGET_PALETTE. -/
def diffuse_image (r : Raster) : Raster × Bool :=
  diffuse TARGET_PALETTE r

/-- Python round(): round-half-to-even (banker's rounding). -/
def py_round (q : ℚ) : ℤ :=
  if q - ⌊q⌋ < 1/2 then ⌊q⌋
  else if 1/2 < q - ⌊q⌋ then ⌊q⌋ + 1
  else if ⌊q⌋ % 2 = 0 then ⌊q⌋ else ⌊q⌋ + 1

/-- split_palette (convert.py lines 36-37): slices of three flat channel
values; a final slice shorter than three is kept as is, like the Python
slice palette[x : x + 3]. -/
def split_palette : List ℤ → List (List ℤ)
  | [] => []
  | [a] => [[a]]
  | [a, b] => [[a, b]]
  | a :: b :: c :: rest => [a, b, c] :: split_palette rest

/-- Python sequence unpacking r, g, b = lst: fails unless the list has
exactly three elements. -/
def unpack3 (l : List ℚ) : Option (ℚ × ℚ × ℚ) :=
  match l with
  | [a, b, c] => some (a, b, c)
  | _ => none

/-- blend_palette (convert.py lines 40-47) with the two module-level
palettes as parameters (the contract `blend` of the specification; the
source reads the globals SATURATED_PALETTE and OG_PALETTE).  The loop body
indexes split_palette of each palette at i in range(7) and unpacks three
channels; none models the IndexError / ValueError when that fails. -/
def blend_palette_with (saturated anchor : List ℤ) (saturation : ℚ) :
    Option (List ℤ) :=
  (List.range 7).foldlM (fun palette i => do
    let chunk_s ← (split_palette saturated)[i]?
    let (rs, gs, bs) ← unpack3 (chunk_s.map (fun c : ℤ => (c : ℚ) * saturation))
    let chunk_d ← (split_palette anchor)[i]?
    let (rd, gd, bd) ← unpack3 (chunk_d.map (fun c : ℤ => (c : ℚ) * (1 - saturation)))
    pure (palette ++ [py_round (rs + rd), py_round (gs + gd), py_round (bs + bd)]))
    []

/-- OG_PALETTE (convert.py line 29). -/
def OG_PALETTE : List ℤ :=
  [0, 0, 0, 255, 255, 255, 0, 255, 0, 0, 0, 255, 255, 0, 0, 255, 255, 0, 255, 128, 0]

/-- ALMOST_DATASHEET_PALETTE (convert.py line 28). -/
def ALMOST_DATASHEET_PALETTE : List ℤ :=
  [0, 0, 0, 255, 255, 255, 45, 101, 67, 63, 62, 105, 144, 61, 63, 167, 161, 72, 157, 83, 65]

/-- SATURATED_PALETTE (convert.py line 33). -/
def SATURATED_PALETTE : List ℤ := ALMOST_DATASHEET_PALETTE

/-- blend_palette (convert.py lines 40-47) exactly as in the source, over
the selected module palettes. -/
def blend_palette (saturation : ℚ) : Option (List ℤ) :=
  blend_palette_with SATURATED_PALETTE OG_PALETTE saturation

/-- Raster-scan order on positions: strictly earlier row, or same row and
strictly smaller column. -/
def rasterLt (p q : ℤ × ℤ) : Prop :=
  p.2 < q.2 ∨ (p.2 = q.2 ∧ p.1 < q.1)

/-- The property asserted by claim C1 of the palette entry returned by the
nearest-color search: it is a palette member of minimal squared distance,
and every entry strictly before it in palette order has strictly larger
distance (first-match tie-break). -/
def IsFirstNearest (palette : List Pixel) (old_pixel res : Pixel) : Prop :=
  res ∈ palette ∧
  (∀ c ∈ palette, euclidean_distance old_pixel res ≤ euclidean_distance old_pixel c) ∧
  ∃ l1 l2, palette = l1 ++ res :: l2 ∧
    ∀ c ∈ l1, euclidean_distance old_pixel res < euclidean_distance old_pixel c

/-- The entry formula of the specification for blending: entry k is
round(saturated[k] * ratio + anchor[k] * (1 - ratio)), for the 21 flat
channel slots. -/
def spec_blend (saturated anchor : List ℤ) (ratio : ℚ) : List ℤ :=
  (List.range 21).map (fun k =>
    py_round ((saturated.getD k 0 : ℚ) * ratio + (anchor.getD k 0 : ℚ) * (1 - ratio)))

/-! ### Nearest-color search: lemmas and claim C1 -/

lemma euclidean_distance_nonneg (a b : Pixel) : 0 ≤ euclidean_distance a b := by
  unfold euclidean_distance
  dsimp only
  exact add_nonneg (add_nonneg (mul_self_nonneg _) (mul_self_nonneg _)) (mul_self_nonneg _)

lemma euclidean_distance_self (a : Pixel) : euclidean_distance a a = 0 := by
  unfold euclidean_distance
  dsimp only
  ring

lemma euclidean_distance_lt_maxsize (a b : Pixel)
    (ha : ValidPixel a) (hb : ValidPixel b) :
    euclidean_distance a b < maxsize := by
  obtain ⟨ha1, ha2, ha3⟩ := ha
  obtain ⟨hb1, hb2, hb3⟩ := hb
  have c1 : (a.1 : ℤ) ≤ 255 := by exact_mod_cast ha1
  have c2 : (a.2.1 : ℤ) ≤ 255 := by exact_mod_cast ha2
  have c3 : (a.2.2 : ℤ) ≤ 255 := by exact_mod_cast ha3
  have d1 : (b.1 : ℤ) ≤ 255 := by exact_mod_cast hb1
  have d2 : (b.2.1 : ℤ) ≤ 255 := by exact_mod_cast hb2
  have d3 : (b.2.2 : ℤ) ≤ 255 := by exact_mod_cast hb3
  have e1 : (0 : ℤ) ≤ (a.1 : ℤ) := Int.ofNat_nonneg _
  have e2 : (0 : ℤ) ≤ (a.2.1 : ℤ) := Int.ofNat_nonneg _
  have e3 : (0 : ℤ) ≤ (a.2.2 : ℤ) := Int.ofNat_nonneg _
  have f1 : (0 : ℤ) ≤ (b.1 : ℤ) := Int.ofNat_nonneg _
  have f2 : (0 : ℤ) ≤ (b.2.1 : ℤ) := Int.ofNat_nonneg _
  have f3 : (0 : ℤ) ≤ (b.2.2 : ℤ) := Int.ofNat_nonneg _
  unfold euclidean_distance maxsize
  dsimp only
  nlinarith

lemma euclidean_distance_eq_zero (a b : Pixel)
    (h : euclidean_distance a b = 0) : b = a := by
  unfold euclidean_distance at h
  dsimp only at h
  have h1 : ((a.1 : ℤ) - b.1) * ((a.1 : ℤ) - b.1) = 0 := by
    nlinarith [mul_self_nonneg ((a.1 : ℤ) - b.1), mul_self_nonneg ((a.2.1 : ℤ) - b.2.1),
      mul_self_nonneg ((a.2.2 : ℤ) - b.2.2)]
  have h2 : ((a.2.1 : ℤ) - b.2.1) * ((a.2.1 : ℤ) - b.2.1) = 0 := by
    nlinarith [mul_self_nonneg ((a.1 : ℤ) - b.1), mul_self_nonneg ((a.2.1 : ℤ) - b.2.1),
      mul_self_nonneg ((a.2.2 : ℤ) - b.2.2)]
  have h3 : ((a.2.2 : ℤ) - b.2.2) * ((a.2.2 : ℤ) - b.2.2) = 0 := by
    nlinarith [mul_self_nonneg ((a.1 : ℤ) - b.1), mul_self_nonneg ((a.2.1 : ℤ) - b.2.1),
      mul_self_nonneg ((a.2.2 : ℤ) - b.2.2)]
  have g1 : a.1 = b.1 := by
    have := mul_self_eq_zero.mp h1
    omega
  have g2 : a.2.1 = b.2.1 := by
    have := mul_self_eq_zero.mp h2
    omega
  have g3 : a.2.2 = b.2.2 := by
    have := mul_self_eq_zero.mp h3
    omega
  obtain ⟨x, y, z⟩ := a
  obtain ⟨u, v, w⟩ := b
  simp_all

/-- Full characterization of the search loop: either no candidate beats the
incoming best distance and the incoming best candidate is returned, or the
result is the first candidate of minimal distance below the incoming bound. -/
lemma closest_loop_char (old_pixel : Pixel) :
    ∀ (rest : List Pixel) (best : Pixel) (bd : ℤ),
      ∃ res, closest_loop old_pixel rest best bd = res ∧
        ((res = best ∧ ∀ c ∈ rest, bd ≤ euclidean_distance old_pixel c) ∨
         (∃ l1 l2, rest = l1 ++ res :: l2 ∧
            euclidean_distance old_pixel res < bd ∧
            (∀ c ∈ l1, euclidean_distance old_pixel res < euclidean_distance old_pixel c) ∧
            (∀ c ∈ l2, euclidean_distance old_pixel res ≤ euclidean_distance old_pixel c))) := by
  intro rest
  induction rest with
  | nil =>
    intro best bd
    exact ⟨best, rfl, Or.inl ⟨rfl, by simp⟩⟩
  | cons c rest ih =>
    intro best bd
    by_cases h : euclidean_distance old_pixel c < bd
    · obtain ⟨res, hres, hch⟩ := ih c (euclidean_distance old_pixel c)
      refine ⟨res, ?_, ?_⟩
      · rw [closest_loop, if_pos h]; exact hres
      · right
        rcases hch with ⟨heq, hall⟩ | ⟨l1, l2, hsplit, hlt, hbefore, hafter⟩
        · subst heq
          exact ⟨[], rest, rfl, h, by simp, hall⟩
        · refine ⟨c :: l1, l2, ?_, lt_trans hlt h, ?_, hafter⟩
          · rw [hsplit, List.cons_append]
          · intro x hx
            rcases List.mem_cons.mp hx with hx | hx
            · subst hx; exact hlt
            · exact hbefore x hx
    · obtain ⟨res, hres, hch⟩ := ih best bd
      refine ⟨res, ?_, ?_⟩
      · rw [closest_loop, if_neg h]; exact hres
      · rcases hch with ⟨heq, hall⟩ | ⟨l1, l2, hsplit, hlt, hbefore, hafter⟩
        · left
          refine ⟨heq, ?_⟩
          intro x hx
          rcases List.mem_cons.mp hx with hx | hx
          · subst hx; omega
          · exact hall x hx
        · right
          refine ⟨c :: l1, l2, ?_, hlt, ?_, hafter⟩
          · rw [hsplit, List.cons_append]
          · intro x hx
            rcases List.mem_cons.mp hx with hx | hx
            · subst hx; omega
            · exact hbefore x hx

/-- C1: for every input color, the nearest-color search returns the palette
entry minimizing the squared Euclidean distance, with the first entry
achieving the minimum winning ties; a color that is itself a palette entry
is returned exactly.  The source get_closest_colour is the search
instantiated at TARGET_PALETTE. -/
theorem claim_C1_nearest_first_min :
    (∀ (palette : List Pixel) (old_pixel : Pixel),
      palette ≠ [] → ValidPixel old_pixel → (∀ c ∈ palette, ValidPixel c) →
      ∃ res, nearest palette old_pixel = some res ∧
        IsFirstNearest palette old_pixel res ∧
        (old_pixel ∈ palette → res = old_pixel)) ∧
    (∀ p : Pixel, nearest TARGET_PALETTE p = some (get_closest_colour p)) := by
  constructor
  · intro palette old_pixel hne hvo hvp
    obtain ⟨p0, t, rfl⟩ := List.exists_cons_of_ne_nil hne
    obtain ⟨res, hres, hch⟩ := closest_loop_char old_pixel (p0 :: t) p0 maxsize
    have hns : nearest (p0 :: t) old_pixel = some res := by
      rw [nearest, hres]
    rcases hch with ⟨_, hall⟩ | ⟨l1, l2, hsplit, _, hbefore, hafter⟩
    · exfalso
      have h1 := hall p0 (List.mem_cons_self p0 t)
      have h2 := euclidean_distance_lt_maxsize old_pixel p0 hvo
        (hvp p0 (List.mem_cons_self p0 t))
      omega
    · have hmem : res ∈ p0 :: t := by
        rw [hsplit]
        exact List.mem_append_right l1 (List.mem_cons_self res l2)
      have hmin : ∀ c ∈ p0 :: t,
          euclidean_distance old_pixel res ≤ euclidean_distance old_pixel c := by
        intro c hc
        rw [hsplit] at hc
        rcases List.mem_append.mp hc with hc | hc
        · exact le_of_lt (hbefore c hc)
        · rcases List.mem_cons.mp hc with hc | hc
          · subst hc; exact le_refl _
          · exact hafter c hc
      refine ⟨res, hns, ⟨hmem, hmin, l1, l2, hsplit, hbefore⟩, ?_⟩
      intro hin
      have hle := hmin old_pixel hin
      rw [euclidean_distance_self] at hle
      have hge := euclidean_distance_nonneg old_pixel res
      exact euclidean_distance_eq_zero old_pixel res (le_antisymm hle hge)
  · intro p
    rfl

theorem claim_C1_witness :
    ∃ res, nearest [(0,0,0), (255,255,255)] (10,10,10) = some res ∧
      IsFirstNearest [(0,0,0), (255,255,255)] (10,10,10) res ∧
      ((10,10,10) ∈ ([(0,0,0), (255,255,255)] : List Pixel) → res = (10,10,10)) :=
  claim_C1_nearest_first_min.1 [(0,0,0), (255,255,255)] (10,10,10)
    (by decide) (by decide) (by decide)

/-- C3 fails on the code: clamp truncates toward zero (u8 conversion), it
does not round to the nearest integer.  With old = 7, new = 0 and a
neighbor at 100, the per-channel value is 100 + 7/8 = 100.875, whose
nearest integer is 101, but the code stores 100. -/
theorem claim_C3_counterexample :
    calculate_adjusted_rgb (7,7,7) (0,0,0) (100,100,100) = (100,100,100) ∧
    round ((100 : ℚ) + ((7 : ℚ) - (0 : ℚ)) / 8) = 101 := by
  constructor
  · norm_num [calculate_adjusted_rgb, adjusted_channel, clamp]
    decide
  · rw [round_eq]
    norm_num

/-- C3 amended: each channel of an in-bounds neighbor is replaced by
clamp(diffused + (old - new)/8), where clamp saturates values above 255 to
255 and values below 0 to 0, and truncates (floor) every value in between
rather than rounding to nearest. -/
theorem claim_C3_clamp_saturates_and_floors :
    (∀ old_rgb new_rgb diffused_rgb : Pixel,
      calculate_adjusted_rgb old_rgb new_rgb diffused_rgb =
        (clamp (adjusted_channel old_rgb.1 new_rgb.1 diffused_rgb.1),
         clamp (adjusted_channel old_rgb.2.1 new_rgb.2.1 diffused_rgb.2.1),
         clamp (adjusted_channel old_rgb.2.2 new_rgb.2.2 diffused_rgb.2.2))) ∧
    (∀ q : ℚ, 255 < q → clamp q = 255) ∧
    (∀ q : ℚ, q < 0 → clamp q = 0) ∧
    (∀ q : ℚ, 0 ≤ q → q ≤ 255 → (clamp q : ℤ) = ⌊q⌋) := by
  refine ⟨fun _ _ _ => rfl, ?_, ?_, ?_⟩
  · intro q h
    rw [clamp, if_pos h]
  · intro q h
    rw [clamp, if_neg (by linarith), if_pos h]
  · intro q h0 h255
    rw [clamp, if_neg (not_lt.mpr h255), if_neg (not_lt.mpr h0)]
    exact Int.toNat_of_nonneg (Int.floor_nonneg.mpr h0)

theorem claim_C3_witness :
    clamp 300 = 255 ∧ clamp (-3) = 0 ∧ (clamp (1545/8) : ℤ) = ⌊(1545 : ℚ)/8⌋ :=
  ⟨claim_C3_clamp_saturates_and_floors.2.1 300 (by norm_num),
   claim_C3_clamp_saturates_and_floors.2.2.1 (-3) (by norm_num),
   claim_C3_clamp_saturates_and_floors.2.2.2 (1545/8) (by norm_num) (by norm_num)⟩

/-! ### Raster update lemmas and the distribute_error characterization -/

lemma putpixel_size (r : Raster) (p : ℤ × ℤ) (v : Pixel) :
    (putpixel r p v).size = r.size := rfl

lemma putpixel_data (r : Raster) (p : ℤ × ℤ) (v : Pixel) (q : ℤ × ℤ) :
    (putpixel r p v).data q = if q = p then v else r.data q := rfl

/-- One guarded read-modify-write block of distribute_error, pointwise. -/
lemma cput_data (s : Raster) (c : Prop) [Decidable c] (p q : ℤ × ℤ)
    (old_pixel new_pixel : Pixel) :
    (if c then
        putpixel s p (calculate_adjusted_rgb old_pixel new_pixel (getpixel s p))
      else s).data q =
      if c ∧ q = p then calculate_adjusted_rgb old_pixel new_pixel (s.data q)
      else s.data q := by
  by_cases hc : c
  · by_cases hq : q = p
    · subst hq
      simp [hc, putpixel, getpixel]
    · simp [hc, hq, putpixel]
  · simp [hc]

/-- One guarded read-modify-write block of distribute_error preserves the
raster size. -/
lemma cput_size (s : Raster) (c : Prop) [Decidable c] (p : ℤ × ℤ)
    (old_pixel new_pixel : Pixel) :
    (if c then
        putpixel s p (calculate_adjusted_rgb old_pixel new_pixel (getpixel s p))
      else s).size = s.size := by
  split_ifs <;> rfl

lemma distribute_error_size (r : Raster) (old_pixel new_pixel : Pixel) (x y : ℤ) :
    (distribute_error r old_pixel new_pixel x y).size = r.size := by
  simp only [distribute_error]
  simp only [cput_size]

/-- Pointwise characterization of distribute_error, with the exact guards of
the source (the sixth tap is guarded by the conjunction of the first two
bounds checks computed up front). -/
lemma distribute_error_data (r : Raster) (old_pixel new_pixel : Pixel) (x y q1 q2 : ℤ) :
    (distribute_error r old_pixel new_pixel x y).data (q1, q2) =
      if (q1, q2) = (x + 1, y) ∧ is_in_bounds r.size (x + 1) y = true then
        calculate_adjusted_rgb old_pixel new_pixel (r.data (q1, q2))
      else if (q1, q2) = (x + 2, y) ∧ is_in_bounds r.size (x + 2) y = true then
        calculate_adjusted_rgb old_pixel new_pixel (r.data (q1, q2))
      else if (q1, q2) = (x - 1, y + 1) ∧ is_in_bounds r.size (x - 1) (y + 1) = true then
        calculate_adjusted_rgb old_pixel new_pixel (r.data (q1, q2))
      else if (q1, q2) = (x, y + 1) ∧ is_in_bounds r.size x (y + 1) = true then
        calculate_adjusted_rgb old_pixel new_pixel (r.data (q1, q2))
      else if (q1, q2) = (x, y + 2) ∧ is_in_bounds r.size x (y + 2) = true then
        calculate_adjusted_rgb old_pixel new_pixel (r.data (q1, q2))
      else if (q1, q2) = (x + 1, y + 1) ∧
          (is_in_bounds r.size (x + 1) y = true ∧ is_in_bounds r.size x (y + 1) = true) then
        calculate_adjusted_rgb old_pixel new_pixel (r.data (q1, q2))
      else r.data (q1, q2) := by
  simp only [distribute_error]
  simp only [cput_data, cput_size, Bool.and_eq_true]
  by_cases h1 : (q1, q2) = ((x + 1 : ℤ), y)
  · rw [h1]
    have n2 : ((x + 1 : ℤ), y) ≠ ((x + 2 : ℤ), y) := by
      intro h; rw [Prod.mk.injEq] at h; omega
    have n3 : ((x + 1 : ℤ), y) ≠ ((x - 1 : ℤ), y + 1) := by
      intro h; rw [Prod.mk.injEq] at h; omega
    have n4 : ((x + 1 : ℤ), y) ≠ ((x : ℤ), y + 1) := by
      intro h; rw [Prod.mk.injEq] at h; omega
    have n5 : ((x + 1 : ℤ), y) ≠ ((x : ℤ), y + 2) := by
      intro h; rw [Prod.mk.injEq] at h; omega
    have n6 : ((x + 1 : ℤ), y) ≠ ((x + 1 : ℤ), y + 1) := by
      intro h; rw [Prod.mk.injEq] at h; omega
    simp [n2, n3, n4, n5, n6]
  by_cases h2 : (q1, q2) = ((x + 2 : ℤ), y)
  · rw [h2]
    have n1 : ((x + 2 : ℤ), y) ≠ ((x + 1 : ℤ), y) := by
      intro h; rw [Prod.mk.injEq] at h; omega
    have n3 : ((x + 2 : ℤ), y) ≠ ((x - 1 : ℤ), y + 1) := by
      intro h; rw [Prod.mk.injEq] at h; omega
    have n4 : ((x + 2 : ℤ), y) ≠ ((x : ℤ), y + 1) := by
      intro h; rw [Prod.mk.injEq] at h; omega
    have n5 : ((x + 2 : ℤ), y) ≠ ((x : ℤ), y + 2) := by
      intro h; rw [Prod.mk.injEq] at h; omega
    have n6 : ((x + 2 : ℤ), y) ≠ ((x + 1 : ℤ), y + 1) := by
      intro h; rw [Prod.mk.injEq] at h; omega
    simp [n1, n3, n4, n5, n6]
  by_cases h3 : (q1, q2) = ((x - 1 : ℤ), y + 1)
  · rw [h3]
    have n1 : ((x - 1 : ℤ), y + 1) ≠ ((x + 1 : ℤ), y) := by
      intro h; rw [Prod.mk.injEq] at h; omega
    have n2 : ((x - 1 : ℤ), y + 1) ≠ ((x + 2 : ℤ), y) := by
      intro h; rw [Prod.mk.injEq] at h; omega
    have n4 : ((x - 1 : ℤ), y + 1) ≠ ((x : ℤ), y + 1) := by
      intro h; rw [Prod.mk.injEq] at h; omega
    have n5 : ((x - 1 : ℤ), y + 1) ≠ ((x : ℤ), y + 2) := by
      intro h; rw [Prod.mk.injEq] at h; omega
    have n6 : ((x - 1 : ℤ), y + 1) ≠ ((x + 1 : ℤ), y + 1) := by
      intro h; rw [Prod.mk.injEq] at h; omega
    simp [n1, n2, n4, n5, n6]
  by_cases h4 : (q1, q2) = ((x : ℤ), y + 1)
  · rw [h4]
    have n1 : ((x : ℤ), y + 1) ≠ ((x + 1 : ℤ), y) := by
      intro h; rw [Prod.mk.injEq] at h; omega
    have n2 : ((x : ℤ), y + 1) ≠ ((x + 2 : ℤ), y) := by
      intro h; rw [Prod.mk.injEq] at h; omega
    have n3 : ((x : ℤ), y + 1) ≠ ((x - 1 : ℤ), y + 1) := by
      intro h; rw [Prod.mk.injEq] at h; omega
    have n5 : ((x : ℤ), y + 1) ≠ ((x : ℤ), y + 2) := by
      intro h; rw [Prod.mk.injEq] at h; omega
    have n6 : ((x : ℤ), y + 1) ≠ ((x + 1 : ℤ), y + 1) := by
      intro h; rw [Prod.mk.injEq] at h; omega
    simp [n1, n2, n3, n5, n6]
  by_cases h5 : (q1, q2) = ((x : ℤ), y + 2)
  · rw [h5]
    have n1 : ((x : ℤ), y + 2) ≠ ((x + 1 : ℤ), y) := by
      intro h; rw [Prod.mk.injEq] at h; omega
    have n2 : ((x : ℤ), y + 2) ≠ ((x + 2 : ℤ), y) := by
      intro h; rw [Prod.mk.injEq] at h; omega
    have n3 : ((x : ℤ), y + 2) ≠ ((x - 1 : ℤ), y + 1) := by
      intro h; rw [Prod.mk.injEq] at h; omega
    have n4 : ((x : ℤ), y + 2) ≠ ((x : ℤ), y + 1) := by
      intro h; rw [Prod.mk.injEq] at h; omega
    have n6 : ((x : ℤ), y + 2) ≠ ((x + 1 : ℤ), y + 1) := by
      intro h; rw [Prod.mk.injEq] at h; omega
    simp [n1, n2, n3, n4, n6]
  by_cases h6 : (q1, q2) = ((x + 1 : ℤ), y + 1)
  · rw [h6]
    have n1 : ((x + 1 : ℤ), y + 1) ≠ ((x + 1 : ℤ), y) := by
      intro h; rw [Prod.mk.injEq] at h; omega
    have n2 : ((x + 1 : ℤ), y + 1) ≠ ((x + 2 : ℤ), y) := by
      intro h; rw [Prod.mk.injEq] at h; omega
    have n3 : ((x + 1 : ℤ), y + 1) ≠ ((x - 1 : ℤ), y + 1) := by
      intro h; rw [Prod.mk.injEq] at h; omega
    have n4 : ((x + 1 : ℤ), y + 1) ≠ ((x : ℤ), y + 1) := by
      intro h; rw [Prod.mk.injEq] at h; omega
    have n5 : ((x + 1 : ℤ), y + 1) ≠ ((x : ℤ), y + 2) := by
      intro h; rw [Prod.mk.injEq] at h; omega
    simp [n1, n2, n3, n4, n5]
  · simp [h1, h2, h3, h4, h5, h6]

/-- For a pixel (x, y) inside the raster, distribute_error writes exactly
the in-bounds members of the six-tap neighborhood, each with its adjusted
value, and leaves every other position unchanged. -/
lemma distribute_error_in_bounds_data :
    ∀ (r : Raster) (old_pixel new_pixel : Pixel) (x y q1 q2 : ℤ),
      0 ≤ x → x < r.width → 0 ≤ y → y < r.height →
      (distribute_error r old_pixel new_pixel x y).data (q1, q2) =
        if (q1, q2) ∈ [((x + 1 : ℤ), y), (x + 2, y), (x - 1, y + 1),
              (x, y + 1), (x + 1, y + 1), (x, y + 2)] ∧
            is_in_bounds r.size q1 q2 = true then
          calculate_adjusted_rgb old_pixel new_pixel (r.data (q1, q2))
        else r.data (q1, q2) := by
  intro r old_pixel new_pixel x y q1 q2 hx0 hxw hy0 hyh
  rw [distribute_error_data]
  simp only [List.mem_cons, List.not_mem_nil, or_false, is_in_bounds, decide_eq_true_eq,
    Raster.size, Prod.mk.injEq]
  split_ifs <;> first | rfl | omega

/-- C2: for a processed pixel (x, y) inside the raster, distribute_error
writes exactly those of the six offsets (x+1,y), (x+2,y), (x-1,y+1),
(x,y+1), (x+1,y+1), (x,y+2) that are in bounds (each receiving its
adjusted value) and leaves every other position unchanged; out-of-bounds
offsets are skipped with no wrap-around and without error. -/
theorem claim_C2_six_tap_kernel :
    ∀ (r : Raster) (old_pixel new_pixel : Pixel) (x y q1 q2 : ℤ),
      0 ≤ x → x < r.width → 0 ≤ y → y < r.height →
      (distribute_error r old_pixel new_pixel x y).data (q1, q2) =
        if (q1, q2) ∈ [((x + 1 : ℤ), y), (x + 2, y), (x - 1, y + 1),
              (x, y + 1), (x + 1, y + 1), (x, y + 2)] ∧
            is_in_bounds r.size q1 q2 = true then
          calculate_adjusted_rgb old_pixel new_pixel (r.data (q1, q2))
        else r.data (q1, q2) :=
  distribute_error_in_bounds_data

theorem claim_C2_witness :
    (distribute_error ⟨3, 3, fun _ => (100,100,100)⟩ (7,7,7) (0,0,0) 0 0).data (1, 0) =
      if ((1 : ℤ), (0 : ℤ)) ∈ [((0 + 1 : ℤ), (0 : ℤ)), (0 + 2, 0), (0 - 1, 0 + 1),
            (0, 0 + 1), (0 + 1, 0 + 1), (0, 0 + 2)] ∧
          is_in_bounds (Raster.mk 3 3 (fun _ => (100,100,100))).size 1 0 = true then
        calculate_adjusted_rgb (7,7,7) (0,0,0)
          ((Raster.mk 3 3 (fun _ => (100,100,100))).data (1, 0))
      else (Raster.mk 3 3 (fun _ => (100,100,100))).data (1, 0) :=
  claim_C2_six_tap_kernel ⟨3, 3, fun _ => (100,100,100)⟩ (7,7,7) (0,0,0) 0 0 1 0
    (by decide) (by decide) (by decide) (by decide)

/-! ### Traversal order and the settled-pixel property -/

lemma rowMajor_pairwise (w h : ℤ) : List.Pairwise rasterLt (rowMajor w h) := by
  unfold rowMajor
  generalize w.toNat = wn
  induction h.toNat with
  | zero => simp
  | succ n ih =>
    rw [List.range_succ, List.flatMap_append]
    rw [List.pairwise_append]
    refine ⟨ih, ?_, ?_⟩
    · simp only [List.flatMap_cons, List.flatMap_nil, List.append_nil]
      exact List.Pairwise.map _
        (fun a b hab => Or.inr ⟨rfl, show (a : ℤ) < (b : ℤ) from by exact_mod_cast hab⟩)
        (List.pairwise_lt_range wn)
    · intro a ha b hb
      simp only [List.flatMap_cons, List.flatMap_nil, List.append_nil, List.mem_map] at hb
      obtain ⟨xb, _, rfl⟩ := hb
      simp only [List.mem_flatMap, List.mem_map, List.mem_range] at ha
      obtain ⟨ya, hya, xa, _, rfl⟩ := ha
      exact Or.inl (show (ya : ℤ) < (n : ℤ) from by exact_mod_cast hya)

lemma mem_rowMajor (w h a b : ℤ) :
    ((a, b) ∈ rowMajor w h) ↔ (0 ≤ a ∧ a < w ∧ 0 ≤ b ∧ b < h) := by
  simp only [rowMajor, List.mem_flatMap, List.mem_map, List.mem_range]
  constructor
  · rintro ⟨yy, hyy, xx, hxx, heq⟩
    rw [Prod.mk.injEq] at heq
    obtain ⟨h1, h2⟩ := heq
    omega
  · rintro ⟨h1, h2, h3, h4⟩
    refine ⟨b.toNat, by omega, a.toNat, by omega, ?_⟩
    rw [Prod.mk.injEq]
    constructor <;> omega

/-- Every one of the six taps is strictly later in raster order, so a
position not strictly after the source pixel is never written. -/
lemma distribute_error_not_later (r : Raster) (old_pixel new_pixel : Pixel)
    (x y q1 q2 : ℤ) (h : ¬ rasterLt (x, y) (q1, q2)) :
    (distribute_error r old_pixel new_pixel x y).data (q1, q2) = r.data (q1, q2) := by
  rw [distribute_error_data]
  have hlt : ∀ a b : ℤ, (y < b ∨ (y = b ∧ x < a)) → (q1, q2) ≠ (a, b) := by
    intro a b hab heq
    rw [Prod.mk.injEq] at heq
    exact h (by unfold rasterLt; dsimp only; omega)
  have n1 := hlt (x + 1) y (by omega)
  have n2 := hlt (x + 2) y (by omega)
  have n3 := hlt (x - 1) (y + 1) (by omega)
  have n4 := hlt x (y + 1) (by omega)
  have n5 := hlt x (y + 2) (by omega)
  have n6 := hlt (x + 1) (y + 1) (by omega)
  simp [n1, n2, n3, n4, n5, n6]

lemma nearest_mem (palette : List Pixel) (old_pixel np : Pixel)
    (h : nearest palette old_pixel = some np) : np ∈ palette := by
  cases palette with
  | nil => simp [nearest] at h
  | cons p0 t =>
    rw [nearest] at h
    rw [Option.some.injEq] at h
    obtain ⟨res, hres, hch⟩ := closest_loop_char old_pixel (p0 :: t) p0 maxsize
    rw [hres] at h
    subst h
    rcases hch with ⟨heq, _⟩ | ⟨l1, l2, hsplit, _, _, _⟩
    · rw [heq]
      exact List.mem_cons_self _ _
    · rw [hsplit]
      exact List.mem_append_right l1 (List.mem_cons_self _ _)

/-- The source nearest-color search is the palette-generic one at
TARGET_PALETTE. -/
lemma nearest_TARGET (p : Pixel) :
    nearest TARGET_PALETTE p = some (get_closest_colour p) := rfl

lemma get_closest_colour_mem (p : Pixel) : get_closest_colour p ∈ TARGET_PALETTE :=
  nearest_mem TARGET_PALETTE p _ (nearest_TARGET p)

/-- Processing positions that are all strictly later in raster order never
changes an earlier position. -/
lemma diffuse_go_settled (palette : List Pixel) :
    ∀ (l : List (ℤ × ℤ)) (r : Raster) (a b : ℤ),
      (∀ p ∈ l, rasterLt (a, b) p) →
      ((diffuse_go palette l r).1).data (a, b) = r.data (a, b) := by
  intro l
  induction l with
  | nil => intro r a b _; rfl
  | cons p rest ih =>
    intro r a b h
    obtain ⟨px, py⟩ := p
    have hp := h (px, py) (List.mem_cons_self _ _)
    rw [diffuse_go]
    cases hd : diffuse_pixel palette r px py with
    | none => rfl
    | some r2 =>
      have h2 : ((diffuse_go palette rest r2).1).data (a, b) = r2.data (a, b) :=
        ih r2 a b (fun q hq => h q (List.mem_cons_of_mem _ hq))
      rw [h2]
      rw [diffuse_pixel] at hd
      cases hn : nearest palette (getpixel r (px, py)) with
      | none => rw [hn] at hd; simp at hd
      | some np =>
        rw [hn] at hd
        rw [Option.map_some'] at hd
        rw [Option.some.injEq] at hd
        subst hd
        rw [distribute_error_not_later _ _ _ _ _ _ _ (by unfold rasterLt at hp ⊢; dsimp only at hp ⊢; omega)]
        rw [putpixel_data]
        rw [if_neg]
        intro heq
        rw [Prod.mk.injEq] at heq
        unfold rasterLt at hp
        dsimp only at hp
        omega

/-- With a nonempty palette no step of diffuse_go fails, and the loop over
an appended position list is the composition of the two loops. -/
lemma diffuse_go_append (palette : List Pixel) (hne : palette ≠ []) :
    ∀ (l1 l2 : List (ℤ × ℤ)) (r : Raster),
      diffuse_go palette (l1 ++ l2) r =
        diffuse_go palette l2 (diffuse_go palette l1 r).1 := by
  obtain ⟨p0, t, rfl⟩ := List.exists_cons_of_ne_nil hne
  intro l1
  induction l1 with
  | nil => intro l2 r; rfl
  | cons p rest ih =>
    intro l2 r
    rw [List.cons_append, diffuse_go, diffuse_go]
    rw [show diffuse_pixel (p0 :: t) r p.1 p.2 =
        some (distribute_error
          (putpixel r (p.1, p.2)
            (closest_loop (getpixel r (p.1, p.2)) (p0 :: t) p0 maxsize))
          (getpixel r (p.1, p.2))
          (closest_loop (getpixel r (p.1, p.2)) (p0 :: t) p0 maxsize) p.1 p.2) from rfl]
    exact ih l2 _

lemma diffuse_go_ok (palette : List Pixel) (hne : palette ≠ []) :
    ∀ (l : List (ℤ × ℤ)) (r : Raster), (diffuse_go palette l r).2 = true := by
  obtain ⟨p0, t, rfl⟩ := List.exists_cons_of_ne_nil hne
  intro l
  induction l with
  | nil => intro r; rfl
  | cons p rest ih =>
    intro r
    rw [diffuse_go]
    rw [show diffuse_pixel (p0 :: t) r p.1 p.2 =
        some (distribute_error
          (putpixel r (p.1, p.2)
            (closest_loop (getpixel r (p.1, p.2)) (p0 :: t) p0 maxsize))
          (getpixel r (p.1, p.2))
          (closest_loop (getpixel r (p.1, p.2)) (p0 :: t) p0 maxsize) p.1 p.2) from rfl]
    exact ih _

/-- After the full diffuse_image run, a raster position holds the nearest
palette color of the value it had when the scan reached it: the remaining
positions of the scan never write to it again. -/
lemma diffuse_image_final (r : Raster) (pre post : List (ℤ × ℤ)) (a b : ℤ)
    (hsplit : rowMajor r.width r.height = pre ++ (a, b) :: post) :
    ((diffuse_image r).1).data (a, b) =
      get_closest_colour (((diffuse_go TARGET_PALETTE pre r).1).data (a, b)) := by
  have hTne : TARGET_PALETTE ≠ [] := by simp [TARGET_PALETTE]
  have hpw := rowMajor_pairwise r.width r.height
  rw [hsplit] at hpw
  have hpost : ∀ p ∈ post, rasterLt (a, b) p :=
    (List.pairwise_cons.mp (List.pairwise_append.mp hpw).2.1).1
  rw [diffuse_image, diffuse, hsplit]
  rw [diffuse_go_append TARGET_PALETTE hTne pre ((a, b) :: post) r]
  have hstep : diffuse_go TARGET_PALETTE ((a, b) :: post)
        ((diffuse_go TARGET_PALETTE pre r).1) =
      diffuse_go TARGET_PALETTE post
        (distribute_error
          (putpixel ((diffuse_go TARGET_PALETTE pre r).1) (a, b)
            (get_closest_colour
              (getpixel ((diffuse_go TARGET_PALETTE pre r).1) (a, b))))
          (getpixel ((diffuse_go TARGET_PALETTE pre r).1) (a, b))
          (get_closest_colour
            (getpixel ((diffuse_go TARGET_PALETTE pre r).1) (a, b))) a b) := rfl
  rw [hstep]
  rw [diffuse_go_settled TARGET_PALETTE post _ a b hpost]
  rw [distribute_error_not_later _ _ _ _ _ _ _
    (show ¬ rasterLt (a, b) (a, b) by unfold rasterLt; dsimp only; omega)]
  rw [putpixel_data, if_pos rfl]
  rfl

/-- C4: the ditherer scans in strict raster order (rowMajor is strictly
increasing in that order), error distribution only ever writes to strictly
later positions, and consequently the final value of each position is the
nearest palette color of the value it held when the scan reached it — it is
never modified after being replaced. -/
theorem claim_C4_raster_scan_order :
    (∀ w h : ℤ, List.Pairwise rasterLt (rowMajor w h)) ∧
    (∀ (r : Raster) (old_pixel new_pixel : Pixel) (x y q1 q2 : ℤ),
      ¬ rasterLt (x, y) (q1, q2) →
      (distribute_error r old_pixel new_pixel x y).data (q1, q2) = r.data (q1, q2)) ∧
    (∀ (r : Raster) (pre post : List (ℤ × ℤ)) (a b : ℤ),
      rowMajor r.width r.height = pre ++ (a, b) :: post →
      ((diffuse_image r).1).data (a, b) =
        get_closest_colour (((diffuse_go TARGET_PALETTE pre r).1).data (a, b))) :=
  ⟨rowMajor_pairwise, distribute_error_not_later, diffuse_image_final⟩

theorem claim_C4_witness :
    (distribute_error ⟨2, 2, fun _ => (0,0,0)⟩ (1,1,1) (2,2,2) 1 1).data (0, 0) =
      (Raster.mk 2 2 (fun _ => (0,0,0))).data (0, 0) ∧
    ((diffuse_image ⟨1, 1, fun _ => (9,9,9)⟩).1).data (0, 0) =
      get_closest_colour
        (((diffuse_go TARGET_PALETTE [] ⟨1, 1, fun _ => (9,9,9)⟩).1).data (0, 0)) :=
  ⟨claim_C4_raster_scan_order.2.1 ⟨2, 2, fun _ => (0,0,0)⟩ (1,1,1) (2,2,2) 1 1 0 0
      (by unfold rasterLt; dsimp only; omega),
   claim_C4_raster_scan_order.2.2 ⟨1, 1, fun _ => (9,9,9)⟩ [] [] 0 0 (by decide)⟩

/-- C10 (implicit): after diffuse_image, every in-bounds pixel of the raster
is one of the seven TARGET_PALETTE entries. -/
theorem claim_C10_all_pixels_in_palette :
    ∀ (r : Raster) (a b : ℤ), 0 ≤ a → a < r.width → 0 ≤ b → b < r.height →
      ((diffuse_image r).1).data (a, b) ∈ TARGET_PALETTE := by
  intro r a b h1 h2 h3 h4
  have hmem : (a, b) ∈ rowMajor r.width r.height :=
    (mem_rowMajor _ _ _ _).mpr ⟨h1, h2, h3, h4⟩
  obtain ⟨pre, post, hsplit⟩ := List.append_of_mem hmem
  rw [diffuse_image_final r pre post a b hsplit]
  exact get_closest_colour_mem _

theorem claim_C10_witness :
    ((diffuse_image ⟨1, 1, fun _ => (0,0,0)⟩).1).data (0, 0) ∈ TARGET_PALETTE :=
  claim_C10_all_pixels_in_palette ⟨1, 1, fun _ => (0,0,0)⟩ 0 0
    (by decide) (by decide) (by decide) (by decide)

/-- C9: diffusing a 1x1 raster replaces its single pixel with that pixel's
nearest palette color, writes nowhere else (all six taps are out of
bounds and skipped), and the run completes without failing. -/
theorem claim_C9_one_by_one_safe :
    ∀ (d : ℤ × ℤ → Pixel) (q1 q2 : ℤ),
      (diffuse_image ⟨1, 1, d⟩).2 = true ∧
      ((diffuse_image ⟨1, 1, d⟩).1).data (0, 0) = get_closest_colour (d (0, 0)) ∧
      ((q1, q2) ≠ ((0 : ℤ), (0 : ℤ)) →
        ((diffuse_image ⟨1, 1, d⟩).1).data (q1, q2) = d (q1, q2)) := by
  intro d q1 q2
  have hred : diffuse_image ⟨1, 1, d⟩ =
      (distribute_error (putpixel ⟨1, 1, d⟩ (0, 0) (get_closest_colour (d (0, 0))))
        (d (0, 0)) (get_closest_colour (d (0, 0))) 0 0, true) := rfl
  have hsz : (putpixel ⟨1, 1, d⟩ (0, 0)
      (get_closest_colour (d (0, 0)))).size = ((1 : ℤ), (1 : ℤ)) := rfl
  have hb1 : is_in_bounds ((1 : ℤ), (1 : ℤ)) (0 + 1) 0 = false := by decide
  have hb2 : is_in_bounds ((1 : ℤ), (1 : ℤ)) (0 + 2) 0 = false := by decide
  have hb3 : is_in_bounds ((1 : ℤ), (1 : ℤ)) (0 - 1) (0 + 1) = false := by decide
  have hb4 : is_in_bounds ((1 : ℤ), (1 : ℤ)) 0 (0 + 1) = false := by decide
  have hb5 : is_in_bounds ((1 : ℤ), (1 : ℤ)) 0 (0 + 2) = false := by decide
  refine ⟨by rw [hred], ?_, ?_⟩
  · rw [hred]
    dsimp only
    rw [distribute_error_data]
    simp only [hsz, hb1, hb2, hb3, hb4, hb5, Bool.false_eq_true, and_false, false_and,
      if_false]
    rw [putpixel_data, if_pos rfl]
  · intro hne
    rw [hred]
    dsimp only
    rw [distribute_error_data]
    simp only [hsz, hb1, hb2, hb3, hb4, hb5, Bool.false_eq_true, and_false, false_and,
      if_false]
    rw [putpixel_data, if_neg hne]

theorem claim_C9_witness :
    (diffuse_image ⟨1, 1, fun _ => (5,5,5)⟩).2 = true ∧
    ((diffuse_image ⟨1, 1, fun _ => (5,5,5)⟩).1).data (0, 0) =
      get_closest_colour (5, 5, 5) ∧
    (((3 : ℤ), (3 : ℤ)) ≠ ((0 : ℤ), (0 : ℤ)) →
      ((diffuse_image ⟨1, 1, fun _ => (5,5,5)⟩).1).data (3, 3) = (5, 5, 5)) :=
  claim_C9_one_by_one_safe (fun _ => (5, 5, 5)) 3 3

/-! ### Claim C5: error weight 6/8 -/

/-- When the adjusted value is an exact integer in range, clamp stores it
exactly. -/
lemma clamp_adjusted_exact (o n dch : ℕ) (k : ℤ) (h8 : (o : ℤ) - n = 8 * k)
    (h0 : 0 ≤ (dch : ℤ) + k) (h255 : (dch : ℤ) + k ≤ 255) :
    (clamp (adjusted_channel o n dch) : ℚ) = (((dch : ℤ) + k : ℤ) : ℚ) := by
  have hc : ((o : ℚ) - n) / 8 = (k : ℚ) := by
    have h : ((o : ℚ) - n) = 8 * (k : ℚ) := by exact_mod_cast h8
    rw [h]
    ring
  have hq : adjusted_channel o n dch = (((dch : ℤ) + k : ℤ) : ℚ) := by
    rw [adjusted_channel, hc]
    push_cast
    ring
  rw [hq, clamp]
  rw [if_neg (by exact_mod_cast not_lt.mpr h255)]
  rw [if_neg (by exact_mod_cast not_lt.mpr h0)]
  rw [Int.floor_intCast]
  exact_mod_cast congrArg (Int.cast : ℤ → ℚ) (Int.toNat_of_nonneg h0)

/-- C5: with all six taps in bounds every tap receives
clamp(value + (old-new)/8) with divisor exactly 8; the six pre-clamp
per-channel adjustments sum to 6*(old-new)/8 = 0.75*(old-new), and when no
clamping or truncation takes effect (error divisible by 8, results in
range) the applied integer adjustments sum to the same amount. -/
theorem claim_C5_error_weight :
    (∀ (r : Raster) (old_pixel new_pixel : Pixel) (x y : ℤ),
      1 ≤ x → x + 2 < r.width → 0 ≤ y → y + 2 < r.height →
      ∀ q1 q2 : ℤ,
        (q1, q2) ∈ [((x + 1 : ℤ), y), (x + 2, y), (x - 1, y + 1),
          (x, y + 1), (x + 1, y + 1), (x, y + 2)] →
        (distribute_error r old_pixel new_pixel x y).data (q1, q2) =
          calculate_adjusted_rgb old_pixel new_pixel (r.data (q1, q2))) ∧
    (∀ o n d1 d2 d3 d4 d5 d6 : ℕ,
      (adjusted_channel o n d1 - (d1 : ℚ)) + (adjusted_channel o n d2 - (d2 : ℚ)) +
      (adjusted_channel o n d3 - (d3 : ℚ)) + (adjusted_channel o n d4 - (d4 : ℚ)) +
      (adjusted_channel o n d5 - (d5 : ℚ)) + (adjusted_channel o n d6 - (d6 : ℚ)) =
        6 * (((o : ℚ) - (n : ℚ)) / 8)) ∧
    (∀ (o n : ℕ) (k : ℤ) (d1 d2 d3 d4 d5 d6 : ℕ),
      (o : ℤ) - n = 8 * k →
      (∀ dch ∈ [d1, d2, d3, d4, d5, d6], 0 ≤ (dch : ℤ) + k ∧ (dch : ℤ) + k ≤ 255) →
      ((clamp (adjusted_channel o n d1) : ℚ) - (d1 : ℚ)) +
      ((clamp (adjusted_channel o n d2) : ℚ) - (d2 : ℚ)) +
      ((clamp (adjusted_channel o n d3) : ℚ) - (d3 : ℚ)) +
      ((clamp (adjusted_channel o n d4) : ℚ) - (d4 : ℚ)) +
      ((clamp (adjusted_channel o n d5) : ℚ) - (d5 : ℚ)) +
      ((clamp (adjusted_channel o n d6) : ℚ) - (d6 : ℚ)) =
        6 * (((o : ℚ) - (n : ℚ)) / 8)) := by
  refine ⟨?_, ?_, ?_⟩
  · intro r old_pixel new_pixel x y hx1 hx2 hy0 hy2 q1 q2 hmem
    have hinb : is_in_bounds r.size q1 q2 = true := by
      simp only [List.mem_cons, List.not_mem_nil, or_false, Prod.mk.injEq] at hmem
      simp only [is_in_bounds, decide_eq_true_eq, Raster.size]
      omega
    rw [distribute_error_in_bounds_data r old_pixel new_pixel x y q1 q2
      (by omega) (by omega) (by omega) (by omega)]
    rw [if_pos ⟨hmem, hinb⟩]
  · intro o n d1 d2 d3 d4 d5 d6
    unfold adjusted_channel
    ring
  · intro o n k d1 d2 d3 d4 d5 d6 h8 hrange
    have hc : ((o : ℚ) - n) / 8 = (k : ℚ) := by
      have h : ((o : ℚ) - n) = 8 * (k : ℚ) := by exact_mod_cast h8
      rw [h]
      ring
    have e1 := clamp_adjusted_exact o n d1 k h8 (hrange d1 (by simp)).1 (hrange d1 (by simp)).2
    have e2 := clamp_adjusted_exact o n d2 k h8 (hrange d2 (by simp)).1 (hrange d2 (by simp)).2
    have e3 := clamp_adjusted_exact o n d3 k h8 (hrange d3 (by simp)).1 (hrange d3 (by simp)).2
    have e4 := clamp_adjusted_exact o n d4 k h8 (hrange d4 (by simp)).1 (hrange d4 (by simp)).2
    have e5 := clamp_adjusted_exact o n d5 k h8 (hrange d5 (by simp)).1 (hrange d5 (by simp)).2
    have e6 := clamp_adjusted_exact o n d6 k h8 (hrange d6 (by simp)).1 (hrange d6 (by simp)).2
    rw [e1, e2, e3, e4, e5, e6, hc]
    push_cast
    ring

theorem claim_C5_witness :
    (distribute_error ⟨5, 5, fun _ => (100,100,100)⟩ (8,8,8) (0,0,0) 1 0).data (2, 0) =
      calculate_adjusted_rgb (8,8,8) (0,0,0)
        ((Raster.mk 5 5 (fun _ => (100,100,100))).data (2, 0)) :=
  claim_C5_error_weight.1 ⟨5, 5, fun _ => (100,100,100)⟩ (8,8,8) (0,0,0) 1 0
    (by decide) (by decide) (by decide) (by decide) 2 0 (by decide)

/-- C7: with palette [(0,0,0),(255,255,255)] and a 4x1 raster of
(200,200,200) pixels, the scan starts at pixel 0; its diffuse step replaces
pixel 0 with white (255,255,255), adjusts pixels 1 and 2 (the +1 and +2
same-row taps) to (193,193,193) (the -55/8 per-channel error stored through
clamp), and leaves pixel 3 untouched — the state the next pixels see before
their own nearest-color pass. -/
theorem claim_C7_concrete_scenario :
    rowMajor 4 1 = [((0 : ℤ), (0 : ℤ)), (1, 0), (2, 0), (3, 0)] ∧
    ((diffuse_pixel [(0,0,0), (255,255,255)] ⟨4, 1, fun _ => (200, 200, 200)⟩ 0 0).map
      (fun r => (r.data (0, 0), r.data (1, 0), r.data (2, 0), r.data (3, 0)))) =
      some ((255,255,255), (193,193,193), (193,193,193), (200,200,200)) := by
  constructor
  · decide
  · have hc : calculate_adjusted_rgb (200,200,200) (255,255,255) (200,200,200)
        = (193,193,193) := by
      norm_num [calculate_adjusted_rgb, adjusted_channel, clamp]
      decide
    simp +decide [diffuse_pixel, nearest, closest_loop, euclidean_distance, maxsize,
      distribute_error, is_in_bounds, Raster.size, putpixel, getpixel, hc]

/-! ### Palette blending: claims C6 and C8 -/

lemma py_round_intCast (z : ℤ) : py_round ((z : ℚ)) = z := by
  unfold py_round
  rw [Int.floor_intCast]
  rw [if_pos (by norm_num)]

lemma split_palette_get (l : List ℤ) :
    ∀ i : ℕ, 3 * i + 3 ≤ l.length →
    (split_palette l)[i]? = some [l.getD (3*i) 0, l.getD (3*i+1) 0, l.getD (3*i+2) 0] := by
  induction l using split_palette.induct with
  | case1 =>
    intro i h
    simp at h
  | case2 a =>
    intro i h
    simp at h
  | case3 a b =>
    intro i h
    simp at h
  | case4 a b c rest ih =>
    intro i h
    cases i with
    | zero => simp [split_palette]
    | succ n =>
      have hlen : 3 * n + 3 ≤ rest.length := by
        simp only [List.length_cons] at h
        omega
      have := ih n hlen
      simp only [split_palette]
      rw [List.getElem?_cons_succ]
      rw [this]
      simp [List.getD_cons_succ, show 3 * (n + 1) = 3 * n + 1 + 1 + 1 from by omega,
        show 3 * (n + 1) + 1 = 3 * n + 1 + 1 + 1 + 1 from by omega,
        show 3 * (n + 1) + 2 = 3 * n + 2 + 1 + 1 + 1 from by omega]

lemma map_getD_range (l : List ℤ) :
    (List.range l.length).map (fun k => l.getD k 0) = l := by
  induction l with
  | nil => rfl
  | cons a t ih =>
    rw [List.length_cons, List.range_succ_eq_map, List.map_cons, List.map_map]
    have hmap : List.map ((fun k => (a :: t).getD k 0) ∘ Nat.succ) (List.range t.length)
        = List.map (fun k => t.getD k 0) (List.range t.length) := by
      apply List.map_congr_left
      intro k _
      rfl
    rw [hmap, ih]
    rfl

/-- blend_palette_with succeeds whenever both palettes hold at least seven
full color triples, and produces exactly the specification's rounded
interpolation of the first 21 channel slots. -/
lemma blend_palette_with_char (sat anchor : List ℤ) (hs : 21 ≤ sat.length)
    (ha : 21 ≤ anchor.length) (ratio : ℚ) :
    blend_palette_with sat anchor ratio = some (spec_blend sat anchor ratio) := by
  have s0 := split_palette_get sat 0 (by omega)
  have s1 := split_palette_get sat 1 (by omega)
  have s2 := split_palette_get sat 2 (by omega)
  have s3 := split_palette_get sat 3 (by omega)
  have s4 := split_palette_get sat 4 (by omega)
  have s5 := split_palette_get sat 5 (by omega)
  have s6 := split_palette_get sat 6 (by omega)
  have a0 := split_palette_get anchor 0 (by omega)
  have a1 := split_palette_get anchor 1 (by omega)
  have a2 := split_palette_get anchor 2 (by omega)
  have a3 := split_palette_get anchor 3 (by omega)
  have a4 := split_palette_get anchor 4 (by omega)
  have a5 := split_palette_get anchor 5 (by omega)
  have a6 := split_palette_get anchor 6 (by omega)
  norm_num at s0 s1 s2 s3 s4 s5 s6 a0 a1 a2 a3 a4 a5 a6
  unfold blend_palette_with spec_blend
  rw [show (List.range 7) = [0,1,2,3,4,5,6] from rfl]
  rw [show (List.range 21)
      = [0,1,2,3,4,5,6,7,8,9,10,11,12,13,14,15,16,17,18,19,20] from rfl]
  simp only [List.foldlM_cons, List.foldlM_nil, List.map_cons, List.map_nil]
  rw [s0, s1, s2, s3, s4, s5, s6]
  simp only [a0, a1, a2, a3, a4, a5, a6, Option.bind_eq_bind, Option.some_bind,
    List.map_cons, List.map_nil, unpack3, Option.pure_def,
    List.nil_append, List.cons_append, List.append_nil, List.getD,
    List.get?_eq_getElem?]

lemma spec_blend_zero (sat anchor : List ℤ) (ha : anchor.length = 21) :
    spec_blend sat anchor 0 = anchor := by
  unfold spec_blend
  simp only [mul_zero, zero_add, sub_zero, mul_one, py_round_intCast]
  rw [← ha, map_getD_range]

lemma spec_blend_one (sat anchor : List ℤ) (hs : sat.length = 21) :
    spec_blend sat anchor 1 = sat := by
  unfold spec_blend
  simp only [mul_one, sub_self, mul_zero, add_zero, py_round_intCast]
  rw [← hs, map_getD_range]

/-- C6: for 21-entry (seven-triple) palettes, blending computes
round(saturated[k]*ratio + anchor[k]*(1-ratio)) at every channel slot with
no clamping, and satisfies the identity laws: ratio 0 returns the anchor
palette, ratio 1 returns the saturated palette. -/
theorem claim_C6_blend_identity :
    ∀ (saturated anchor : List ℤ), saturated.length = 21 → anchor.length = 21 →
    ∀ ratio : ℚ,
      blend_palette_with saturated anchor ratio =
        some (spec_blend saturated anchor ratio) ∧
      blend_palette_with saturated anchor 0 = some anchor ∧
      blend_palette_with saturated anchor 1 = some saturated := by
  intro sat anchor hs ha ratio
  refine ⟨blend_palette_with_char sat anchor (by omega) (by omega) ratio, ?_, ?_⟩
  · rw [blend_palette_with_char sat anchor (by omega) (by omega) 0,
      spec_blend_zero sat anchor ha]
  · rw [blend_palette_with_char sat anchor (by omega) (by omega) 1,
      spec_blend_one sat anchor hs]

theorem claim_C6_witness :
    blend_palette_with SATURATED_PALETTE OG_PALETTE 0 =
      some (spec_blend SATURATED_PALETTE OG_PALETTE 0) ∧
    blend_palette_with SATURATED_PALETTE OG_PALETTE 0 = some OG_PALETTE ∧
    blend_palette_with SATURATED_PALETTE OG_PALETTE 1 = some SATURATED_PALETTE :=
  claim_C6_blend_identity SATURATED_PALETTE OG_PALETTE (by decide) (by decide) 0

/-- C8 fails on the code: blending with mismatched-length palettes does not
fail at all — blend reads only the first seven triples of each palette, so
a 24-entry saturated palette against the 21-entry OG_PALETTE succeeds. -/
theorem claim_C8_counterexample :
    (blend_palette_with (OG_PALETTE ++ [1, 2, 3]) OG_PALETTE (1/2)).isSome = true ∧
    (OG_PALETTE ++ [1, 2, 3]).length ≠ OG_PALETTE.length := by
  constructor
  · rw [blend_palette_with_char _ _ (by decide) (by decide) (1/2)]
    rfl
  · decide

/-- C8 amended: an empty palette makes the nearest-color search fail (no
result), and makes the ditherer fail at its very first pixel before any
write, so the raster is returned unchanged — there is no separate
validation step, and no InvalidArgument; blending fails only when a palette
has fewer than seven triples, never because the two lengths differ. -/
theorem claim_C8_empty_palette :
    (∀ old_pixel : Pixel, nearest [] old_pixel = none) ∧
    (∀ r : Raster, 0 < r.width → 0 < r.height → diffuse [] r = (r, false)) ∧
    (∀ (saturated anchor : List ℤ) (ratio : ℚ),
      21 ≤ saturated.length → 21 ≤ anchor.length →
      (blend_palette_with saturated anchor ratio).isSome = true) ∧
    (∀ (anchor : List ℤ) (ratio : ℚ), blend_palette_with [] anchor ratio = none) := by
  refine ⟨fun _ => rfl, ?_, ?_, ?_⟩
  · intro r hw hh
    have hmem : ((0 : ℤ), (0 : ℤ)) ∈ rowMajor r.width r.height :=
      (mem_rowMajor _ _ _ _).mpr ⟨le_refl 0, hw, le_refl 0, hh⟩
    obtain ⟨p, rest, hcons⟩ := List.exists_cons_of_ne_nil (List.ne_nil_of_mem hmem)
    rw [diffuse, hcons, diffuse_go]
    rw [show diffuse_pixel [] r p.1 p.2 = none from rfl]
  · intro sat anchor ratio hs ha
    rw [blend_palette_with_char sat anchor hs ha ratio]
    rfl
  · intro anchor ratio
    rfl

theorem claim_C8_witness :
    diffuse [] ⟨1, 1, fun _ => (0,0,0)⟩ = (⟨1, 1, fun _ => (0,0,0)⟩, false) ∧
    (blend_palette_with SATURATED_PALETTE OG_PALETTE (1/3)).isSome = true :=
  ⟨claim_C8_empty_palette.2.1 ⟨1, 1, fun _ => (0,0,0)⟩ (by decide) (by decide),
   claim_C8_empty_palette.2.2.1 SATURATED_PALETTE OG_PALETTE (1/3)
     (by decide) (by decide)⟩
